import Mathlib

/-!
Verification of the asks-listing endpoint
(`src/api/endpoints/orders/get-orders-asks/v3.ts`).

The handler is embedded shallowly:
* the Joi query schema (lines 36-93) becomes `validateQuery`;
* the SQL status CASE expression (lines 263-272) becomes `statusCase`;
* the dynamically assembled `conditions` array (lines 280-352) becomes a
  list of `Cond` values with boolean semantics `evalCond`;
* `ORDER BY` / `LIMIT` (lines 357-368) become `orderLe`, `effectiveLimit` and
  `executeQuery`, which runs the assembled query against a list of rows
  standing for the `orders` table;
* continuation emission (lines 372-383) becomes `responseContinuation`;
* the row projection (lines 386-438) becomes `projectRow` for the fields the
  claims concern (status, gross/net amounts).

The helpers `splitContinuation`, `buildContinuation` and `getNetAmount` live
in `@/common/utils`, outside the provided sources; their mechanisms are
modelled from the spec (see their doc comments), while the continuation
regex `^\d+(.\d+)?_0x[a-f0-9]{64}$` and every call site come from the
source file itself.
-/

namespace ReservoirAsksV3

/-! ## Character and string helpers -/

/-- `c` is one of the ASCII digits `0`..`9` (the regex class `\d`). -/
def isDigitChar (c : Char) : Bool :=
  decide ('0' ≤ c) && decide (c ≤ '9')

/-- `c` is in the regex class `[a-f0-9]` (lowercase hex). -/
def isHexLowerChar (c : Char) : Bool :=
  isDigitChar c || (decide ('a' ≤ c) && decide (c ≤ 'f'))

/-- The ASCII digit character for `n < 10`. -/
def digitChar (n : Nat) : Char :=
  Char.ofNat (48 + n)

/-- Decimal digit characters of `n`, most significant first, with explicit
fuel (`n < fuel` suffices). -/
def natCharsAux : Nat → Nat → List Char
  | 0, _ => []
  | fuel + 1, n =>
    if n < 10 then [digitChar n]
    else natCharsAux fuel (n / 10) ++ [digitChar (n % 10)]

/-- Decimal digit characters of `n`, most significant first (the way
JavaScript and PostgreSQL render a nonnegative integer). -/
def natChars (n : Nat) : List Char :=
  natCharsAux (n + 1) n

/-- Decimal string of a natural number. -/
def natStr (n : Nat) : String :=
  ⟨natChars n⟩

/-- Value of a most-significant-first digit-character list. -/
def digitsToNat (cs : List Char) : Nat :=
  cs.foldl (fun acc c => acc * 10 + (c.toNat - 48)) 0

/-- `cs.split("_")` exactly as JavaScript's `String.prototype.split` with a
one-character separator: the chunks between the underscores, in order,
empty chunks included. -/
def splitUnd : List Char → List (List Char)
  | [] => [[]]
  | c :: rest =>
    if c = '_' then [] :: splitUnd rest
    else
      match splitUnd rest with
      | [] => [[c]]
      | g :: gs => (c :: g) :: gs

/-- The digit value of a digit character (total: reduces modulo 10). -/
def charDigit (c : Char) : Fin 10 :=
  ⟨(c.toNat - 48) % 10, Nat.mod_lt _ (by omega)⟩

/-- Lexicographic strict order on character lists (the store's text
collation order). -/
def charListLt : List Char → List Char → Bool
  | [], [] => false
  | [], _ :: _ => true
  | _ :: _, [] => false
  | a :: as, b :: bs =>
    decide (a < b) || (decide (a = b) && charListLt as bs)

/-- Strict text order on strings. -/
def strLt (a b : String) : Bool :=
  charListLt a.data b.data

/-- Non-strict text order on strings. -/
def strLe (a b : String) : Bool :=
  strLt a b || decide (a = b)

/-! ## Decimal numerals

Sort-key columns (`orders.price`, the epoch of `orders.created_at`) reach
the JavaScript layer as decimal numerals; `Dec` carries the numeral (a
nonnegative integer part and the fraction digits), `Dec.value` its numeric
value used by the store's comparisons, and `Dec.render` the string the
handler concatenates into a continuation token. -/

structure Dec where
  intPart : Nat
  fracDigits : List (Fin 10)
deriving DecidableEq

/-- Numeric value of the fraction digits, most significant first. -/
def fracVal : List (Fin 10) → ℚ
  | [] => 0
  | d :: ds => ((d : ℚ) + fracVal ds) / 10

/-- Numeric value of the numeral. -/
def Dec.value (d : Dec) : ℚ :=
  (d.intPart : ℚ) + fracVal d.fracDigits

/-- The fraction digits read as an integer numeral. -/
def fracNum : List (Fin 10) → Nat
  | [] => 0
  | d :: ds => d.val * 10 ^ ds.length + fracNum ds

/-- The numeral scaled by `10 ^ M` into an integer, for
`d.fracDigits.length ≤ M`. -/
def Dec.scaled (d : Dec) (M : Nat) : Nat :=
  d.intPart * 10 ^ M + fracNum d.fracDigits * 10 ^ (M - d.fracDigits.length)

/-- Strict numeric order on numerals, computed on the common scale (the
store's `numeric` comparison). -/
def Dec.ltB (a b : Dec) : Bool :=
  decide (a.scaled (max a.fracDigits.length b.fracDigits.length)
    < b.scaled (max a.fracDigits.length b.fracDigits.length))

/-- Numeric equality of numerals on the common scale. -/
def Dec.eqB (a b : Dec) : Bool :=
  decide (a.scaled (max a.fracDigits.length b.fracDigits.length)
    = b.scaled (max a.fracDigits.length b.fracDigits.length))

/-- The numeral as a string: `digits` or `digits.digits`. -/
def Dec.render (d : Dec) : String :=
  if d.fracDigits.isEmpty then natStr d.intPart
  else ⟨natChars d.intPart ++ '.' :: d.fracDigits.map (fun k => digitChar k.val)⟩

/-- Parse a decimal numeral `digits[.digits]` the way the store casts the
bound text parameter to `numeric` / a `to_timestamp` argument.  Anything
else fails. -/
def parseDecNumeral (s : String) : Option Dec :=
  let cs := s.data
  let intcs := cs.takeWhile isDigitChar
  let rest := cs.dropWhile isDigitChar
  if intcs.isEmpty then none
  else
    match rest with
    | [] => some (Dec.mk (digitsToNat intcs) [])
    | '.' :: fr =>
      if !fr.isEmpty && fr.all isDigitChar then
        some (Dec.mk (digitsToNat intcs) (fr.map charDigit))
      else none
    | _ => none

/-! ## Domain enumerations -/

/-- `orders.fillability_status`. -/
inductive FillabilityStatus where
  | fillable
  | filled
  | cancelled
  | expired
  | noBalance
deriving DecidableEq

/-- `orders.approval_status`. -/
inductive ApprovalStatus where
  | approved
  | noApproval
deriving DecidableEq

/-- `orders.side`. -/
inductive Side where
  | sell
  | buy
deriving DecidableEq

/-- The `sortBy` request parameter after validation. -/
inductive SortBy where
  | price
  | createdAt
deriving DecidableEq

/-- The `status` request parameter after validation (`active` / `inactive`). -/
inductive OrderStatusParam where
  | active
  | inactive
deriving DecidableEq

/-- Client-visible error kinds of the endpoint (spec section 7), plus a
generic `validationFailure` for any other Joi schema violation (a field
value outside its declared domain). -/
inductive QueryError where
  | invalidFilterCombination
  | invalidSortForFilter
  | invalidContinuation
  | validationFailure
deriving DecidableEq

/-! ## Status classifier

The SQL `CASE` expression of the projection (source lines 263-272),
transcribed clause by clause. -/

/-- Derived status of a record from its two flags. -/
def statusCase (f : FillabilityStatus) (a : ApprovalStatus) : String :=
  if f = FillabilityStatus.filled then "filled"
  else if f = FillabilityStatus.cancelled then "cancelled"
  else if f = FillabilityStatus.expired then "expired"
  else if f = FillabilityStatus.noBalance then "inactive"
  else if a = ApprovalStatus.noApproval then "inactive"
  else "active"

/-- The status table exactly as the spec writes it (section 4.1): the fixed
precedence fillability-terminal states first, then no-balance / no-approval
to `inactive`, else `active`.  Used to compare `statusCase` against the
documented rule. -/
def specStatusTable (f : FillabilityStatus) (a : ApprovalStatus) : String :=
  match f with
  | FillabilityStatus.filled => "filled"
  | FillabilityStatus.cancelled => "cancelled"
  | FillabilityStatus.expired => "expired"
  | FillabilityStatus.noBalance => "inactive"
  | FillabilityStatus.fillable =>
    match a with
    | ApprovalStatus.noApproval => "inactive"
    | ApprovalStatus.approved => "active"

/-! ## Rows

One row of the `orders` table, restricted to the columns the verified
behaviour reads. -/

structure Row where
  id : String
  side : Side
  tokenSetId : String
  contract : String
  maker : String
  /-- `orders.taker`; `none` models SQL `NULL`. -/
  taker : Option String
  price : Dec
  /-- `orders.currency_price`; `none` models SQL `NULL`. -/
  currencyPrice : Option ℚ
  feeBps : Nat
  createdAt : Dec
  fillability : FillabilityStatus
  approval : ApprovalStatus
deriving DecidableEq

/-! ## Request validation

The Joi query schema (source lines 36-93).  `RawQuery` is the request as it
arrives; `QueryParams` is the validated form the handler body works with.
Joi validates the keys in schema order (`status` before `sortBy` before
`limit`) and only then the object-level dependencies `.or(...)` and
`.with(...)`; `validateQuery` follows that order.  The address/token
pattern checks on `ids`, `token`, `maker` and `contracts` concern only the
fields' charset and are not modelled. -/

/-- The `ids` parameter: Joi accepts a single string or an array. -/
inductive IdsFilter where
  | single (id : String)
  | multiple (ids : List String)
deriving DecidableEq

structure RawQuery where
  ids : Option IdsFilter := none
  token : Option String := none
  maker : Option String := none
  contracts : Option (List String) := none
  status : Option String := none
  includePrivate : Bool := false
  sortBy : Option String := none
  continuation : Option String := none
  limit : Option Nat := none
deriving DecidableEq

structure QueryParams where
  ids : Option IdsFilter
  token : Option String
  maker : Option String
  contracts : Option (List String)
  status : Option OrderStatusParam
  includePrivate : Bool
  sortBy : SortBy
  continuation : Option String
  limit : Nat
deriving DecidableEq

/-- The `status` field check: `Joi.string().valid("active", "inactive")`. -/
def parseStatusField : Option String → Except QueryError (Option OrderStatusParam)
  | none => Except.ok none
  | some "active" => Except.ok (some OrderStatusParam.active)
  | some "inactive" => Except.ok (some OrderStatusParam.inactive)
  | some _ => Except.error QueryError.validationFailure

/-- The `sortBy` field check: `.when("token", ...)` permits `price` only
when `token` is present, `createdAt` always, and defaults to `createdAt`;
the spec names the rejection of `price` without a token filter
`InvalidSortForFilter`. -/
def parseSortField (token : Option String) : Option String → Except QueryError SortBy
  | none => Except.ok SortBy.createdAt
  | some s =>
    if token.isSome then
      if s = "price" then Except.ok SortBy.price
      else if s = "createdAt" then Except.ok SortBy.createdAt
      else Except.error QueryError.validationFailure
    else
      if s = "createdAt" then Except.ok SortBy.createdAt
      else if s = "price" then Except.error QueryError.invalidSortForFilter
      else Except.error QueryError.validationFailure

/-- The `limit` field check: integer in `1..1000`, default 50. -/
def parseLimitField : Option Nat → Except QueryError Nat
  | none => Except.ok 50
  | some n =>
    if 1 ≤ n ∧ n ≤ 1000 then Except.ok n
    else Except.error QueryError.validationFailure

/-- Validate the request against the Joi schema: the field checks in schema
order, then the object-level dependencies
`.or("ids", "token", "contracts", "maker")` and `.with("status", "maker")`,
both failing with `InvalidFilterCombination`. -/
def validateQuery (q : RawQuery) : Except QueryError QueryParams :=
  match parseStatusField q.status with
  | Except.error e => Except.error e
  | Except.ok status =>
    match parseSortField q.token q.sortBy with
    | Except.error e => Except.error e
    | Except.ok sortBy =>
      match parseLimitField q.limit with
      | Except.error e => Except.error e
      | Except.ok limit =>
        if q.ids = none ∧ q.token = none ∧ q.contracts = none ∧ q.maker = none then
          Except.error QueryError.invalidFilterCombination
        else if q.status.isSome ∧ q.maker = none then
          Except.error QueryError.invalidFilterCombination
        else
          Except.ok {
            ids := q.ids
            token := q.token
            maker := q.maker
            contracts := q.contracts
            status := status
            includePrivate := q.includePrivate
            sortBy := sortBy
            continuation := q.continuation
            limit := limit
          }

/-! ## Continuation codec

The handler decodes the continuation with
`splitContinuation(query.continuation, /^\d+(.\d+)?_0x[a-f0-9]{64}$/)`
(source lines 337-341).  `matchesContinuationShape` is that regex —
including the unescaped `.`, which matches any character.  The decode
mechanism itself (reverse the opaque encoding, test the decoded string
against the shape, throw on mismatch, split on `_`) lives in
`@/common/utils`, outside the provided sources, and is modelled from the
spec (section 4.3). -/

/-- Backtracking search for the regex fragment `\d+(.\d+)?` with the group
taken: is there a split `digits+ anychar digits+` of the list?  `a` counts
the digits consumed so far. -/
def numHeadSplit (a : Nat) : List Char → Bool
  | [] => false
  | c :: rest =>
    (decide (1 ≤ a) && !rest.isEmpty && rest.all isDigitChar) ||
      (isDigitChar c && numHeadSplit (a + 1) rest)

/-- The list matches `^\d+(.\d+)?$` (with `.` any character): either it is
one or more digits, or `digits+ anychar digits+`. -/
def matchesNumHead (cs : List Char) : Bool :=
  (!cs.isEmpty && cs.all isDigitChar) || numHeadSplit 0 cs

/-- The decoded continuation matches `^\d+(.\d+)?_0x[a-f0-9]{64}$`
(the unescaped `.` matching any character): a 67-character suffix
`_0x` + 64 lowercase hex digits, preceded by a `\d+(.\d+)?` head. -/
def matchesContinuationShape (s : String) : Bool :=
  match s.data.drop (s.data.length - 67) with
  | '_' :: '0' :: 'x' :: hexs =>
    matchesNumHead (s.data.take (s.data.length - 67)) &&
      decide (hexs.length = 64) && hexs.all isHexLowerChar
  | _ => false

/-- The `0x[a-f0-9]{64}` id component of the continuation regex, as a check
on a character list. -/
def isIdShapeChars : List Char → Bool
  | '0' :: 'x' :: rest => decide (rest.length = 64) && rest.all isHexLowerChar
  | _ => false

/-- The record id matches the `0x[a-f0-9]{64}` component of the
continuation regex. -/
def isIdShape (s : String) : Bool :=
  isIdShapeChars s.data

/-- Modelled from the spec: `buildContinuation` (in `@/common/utils`, not
under the provided sources) applies a reversible byte encoding (base64) to
the delimiter-joined pair.  The token is modelled at the decoded-string
level, the reversible encoding being the identity there. -/
def buildContinuation (s : String) : String := s

/-- Modelled from the spec: `splitContinuation` (in `@/common/utils`, not
under the provided sources) reverses the token encoding, validates the
decoded string against the expected shape — here the regex passed at the
call site — and fails with `InvalidContinuation` on mismatch; on success it
splits the string on `_` and the caller destructures the first two
pieces. -/
def splitContinuation (token : String) : Except QueryError (String × String) :=
  if matchesContinuationShape token then
    match splitUnd token.data with
    | a :: b :: _ => Except.ok (⟨a⟩, ⟨b⟩)
    | _ => Except.error QueryError.invalidContinuation
  else Except.error QueryError.invalidContinuation

/-- Cursor resolution of the handler: no continuation parameter means no
cursor; a present one must decode. -/
def resolveCursor (c : Option String) :
    Except QueryError (Option (String × String)) :=
  match c with
  | none => Except.ok none
  | some tok =>
    match splitContinuation tok with
    | Except.ok pr => Except.ok (some pr)
    | Except.error e => Except.error e

/-! ## Filter conditions

Each constructor of `Cond` is one SQL fragment the handler pushes onto its
`conditions` array (source lines 280-352); `evalCond` is the fragment's
truth value on a row. -/

/-- The zero address, the sentinel for an anonymous taker. -/
def zeroAddress : String :=
  "0x0000000000000000000000000000000000000000"

inductive Cond where
  /-- `orders.side = 'sell'` -/
  | sideIsSell
  /-- `orders.id = $/ids/` -/
  | idEq (id : String)
  /-- `orders.id IN ($/ids:csv/)` -/
  | idIn (ids : List String)
  /-- `orders.token_set_id = $/tokenSetId/` -/
  | tokenSetIdEq (tsid : String)
  /-- `orders.contract IN ($/contractsFilter:raw/)` -/
  | contractIn (contracts : List String)
  /-- `orders.maker = $/maker/` -/
  | makerEq (maker : String)
  /-- `orders.taker = '\x00...00' OR orders.taker IS NULL` -/
  | takerNullOrZero
  /-- `orders.fillability_status = 'fillable' AND orders.approval_status = 'approved'` -/
  | statusDefault
  /-- `orders.fillability_status = 'no-balance' OR (orders.fillability_status = 'fillable' AND orders.approval_status != 'approved')` -/
  | statusInactiveVariant
  /-- `(orders.price, orders.id) > ($/priceOrCreatedAt/, $/id/)` -/
  | paginationPrice (key id : String)
  /-- `(orders.created_at, orders.id) < (to_timestamp($/priceOrCreatedAt/), $/id/)` -/
  | paginationCreatedAt (key id : String)
deriving DecidableEq

/-- Truth value of a condition on a row.  The SQL row comparisons
`(a, b) > (c, d)` / `< ` are lexicographic; an unparseable bound cursor
value makes the store reject the query, so no row satisfies it. -/
def evalCond : Cond → Row → Bool
  | Cond.sideIsSell, r => r.side = Side.sell
  | Cond.idEq i, r => r.id = i
  | Cond.idIn is, r => is.contains r.id
  | Cond.tokenSetIdEq t, r => r.tokenSetId = t
  | Cond.contractIn cs, r => cs.contains r.contract
  | Cond.makerEq m, r => r.maker = m
  | Cond.takerNullOrZero, r => r.taker = some zeroAddress || r.taker = none
  | Cond.statusDefault, r =>
    r.fillability = FillabilityStatus.fillable &&
      r.approval = ApprovalStatus.approved
  | Cond.statusInactiveVariant, r =>
    r.fillability = FillabilityStatus.noBalance ||
      (r.fillability = FillabilityStatus.fillable &&
        !(r.approval = ApprovalStatus.approved))
  | Cond.paginationPrice k i, r =>
    match parseDecNumeral k with
    | some kd =>
      Dec.ltB kd r.price || (Dec.eqB kd r.price && strLt i r.id)
    | none => false
  | Cond.paginationCreatedAt k i, r =>
    match parseDecNumeral k with
    | some kd =>
      Dec.ltB r.createdAt kd || (Dec.eqB r.createdAt kd && strLt r.id i)
    | none => false

/-- The `orderStatusFilter` variable: initialised to the fillable+approved
default (line 281) and replaced inside the `maker` branch when
`status == "inactive"` (lines 316-323). -/
def statusCond (p : QueryParams) : Cond :=
  if p.maker.isSome ∧ p.status = some OrderStatusParam.inactive then
    Cond.statusInactiveVariant
  else Cond.statusDefault

def idsConds : Option IdsFilter → List Cond
  | none => []
  | some (IdsFilter.single i) => [Cond.idEq i]
  | some (IdsFilter.multiple is) => [Cond.idIn is]

/-- `query.token` is rewritten to the token-set id `token:<token>`
(line 292). -/
def tokenConds : Option String → List Cond
  | none => []
  | some t => [Cond.tokenSetIdEq ("token:" ++ t)]

def contractsConds : Option (List String) → List Cond
  | none => []
  | some cs => [Cond.contractIn cs]

def makerConds : Option String → List Cond
  | none => []
  | some m => [Cond.makerEq m]

def privateConds (includePrivate : Bool) : List Cond :=
  if includePrivate then [] else [Cond.takerNullOrZero]

/-- The pagination predicate pushed when a continuation is present
(lines 337-352): tuple-greater on `(price, id)` under price sort,
tuple-less on `(created_at, id)` otherwise. -/
def cursorConds (sortBy : SortBy) : Option (String × String) → List Cond
  | none => []
  | some (k, i) =>
    match sortBy with
    | SortBy.price => [Cond.paginationPrice k i]
    | SortBy.createdAt => [Cond.paginationCreatedAt k i]

/-- The `conditions` array in push order (lines 280-352): the fixed
`side = 'sell'`, then ids, token, contracts, maker, the private-order
exclusion, the status predicate, and the pagination predicate. -/
def buildConditions (p : QueryParams) (cursor : Option (String × String)) :
    List Cond :=
  [Cond.sideIsSell] ++ idsConds p.ids ++ tokenConds p.token ++
    contractsConds p.contracts ++ makerConds p.maker ++
    privateConds p.includePrivate ++ [statusCond p] ++
    cursorConds p.sortBy cursor

/-! ## Sorting, limit and execution -/

/-- The `ORDER BY` comparator (lines 357-362): `orders.price, orders.id`
ascending under price sort, `orders.created_at DESC, orders.id DESC`
otherwise. -/
def orderLe (sortBy : SortBy) (a b : Row) : Bool :=
  match sortBy with
  | SortBy.price =>
    Dec.ltB a.price b.price ||
      (Dec.eqB a.price b.price && strLe a.id b.id)
  | SortBy.createdAt =>
    Dec.ltB b.createdAt a.createdAt ||
      (Dec.eqB b.createdAt a.createdAt && strLe b.id a.id)

/-- Lexicographic non-strict order on pairs, the order of a two-column
`ORDER BY`. -/
def pairLe {α β : Type} [LinearOrder α] [LinearOrder β] (x y : α × β) : Prop :=
  x.1 < y.1 ∨ (x.1 = y.1 ∧ x.2 ≤ y.2)

/-- A condition is one of the two status predicates. -/
def isStatusCond : Cond → Bool
  | Cond.statusDefault => true
  | Cond.statusInactiveVariant => true
  | _ => false

/-- `query.limit = Math.min(query.limit, 100)` (line 365). -/
def effectiveLimit (p : QueryParams) : Nat :=
  min p.limit 100

/-- The assembled query run against the rows of the `orders` table: keep
the rows satisfying every condition of the `WHERE` conjunction, order them
by the `ORDER BY` comparator (modelled by insertion sort), return at most
`limit` of them. -/
def executeQuery (conds : List Cond) (sortBy : SortBy) (limit : Nat)
    (rows : List Row) : List Row :=
  ((rows.filter (fun r => conds.all (fun c => evalCond c r))).insertionSort
    (fun a b => orderLe sortBy a b = true)).take limit

/-- The query the handler sends for validated parameters and resolved
cursor. -/
def runQuery (p : QueryParams) (cursor : Option (String × String))
    (rows : List Row) : List Row :=
  executeQuery (buildConditions p cursor) p.sortBy (effectiveLimit p) rows

/-! ## Continuation emission (lines 372-383) -/

/-- The string joined for the next continuation token: the last row's
`price` under price sort, its `created_at` epoch otherwise, then `_` and
the row's id. -/
def buildContinuationValue (sortBy : SortBy) (r : Row) : String :=
  match sortBy with
  | SortBy.price => r.price.render ++ "_" ++ r.id
  | SortBy.createdAt => r.createdAt.render ++ "_" ++ r.id

/-- The column whose value feeds the continuation token under each sort
mode. -/
def sortKeyOf (m : SortBy) (r : Row) : Dec :=
  match m with
  | SortBy.price => r.price
  | SortBy.createdAt => r.createdAt

/-- A new token is emitted exactly when the page is full
(`rawResult.length === query.limit`), built from the last row. -/
def responseContinuation (sortBy : SortBy) (limit : Nat)
    (result : List Row) : Option String :=
  if result.length = limit then
    match result.getLast? with
    | some r => some (buildContinuation (buildContinuationValue sortBy r))
    | none => none
  else none

/-! ## Projection (lines 386-438) -/

/-- Modelled from the spec: `getNetAmount` (in `@/common/utils`, not under
the provided sources) computes the net amount
`gross × (10000 − feeBps) / 10000` (spec sections 4.5 and 8). -/
def getNetAmount (amount : ℚ) (feeBps : Nat) : ℚ :=
  amount * (10000 - (feeBps : ℚ)) / 10000

/-- `r.currency_price ?? r.price` (lines 408 and 412): the
currency-denominated price when present, the native price otherwise. -/
def grossAmount (r : Row) : ℚ :=
  match r.currencyPrice with
  | some c => c
  | none => r.price.value

/-- The projected record, restricted to the verified fields: the derived
status and the four amounts passed to the price object (lines 399 and
405-414). -/
structure ProjectedOrder where
  id : String
  status : String
  grossCurrencyAmount : ℚ
  grossNativeAmount : ℚ
  netCurrencyAmount : ℚ
  netNativeAmount : ℚ
deriving DecidableEq

def projectRow (r : Row) : ProjectedOrder := {
  id := r.id
  status := statusCase r.fillability r.approval
  grossCurrencyAmount := grossAmount r
  grossNativeAmount := r.price.value
  netCurrencyAmount := getNetAmount (grossAmount r) r.feeBps
  netNativeAmount := getNetAmount r.price.value r.feeBps
}

structure Response where
  orders : List ProjectedOrder
  continuation : Option String
deriving DecidableEq

/-- The whole handler: validate, resolve the cursor, assemble and run the
query, project the rows and attach the next continuation token. -/
def handleRequest (q : RawQuery) (rows : List Row) :
    Except QueryError Response :=
  match validateQuery q with
  | Except.error e => Except.error e
  | Except.ok p =>
    match resolveCursor p.continuation with
    | Except.error e => Except.error e
    | Except.ok cursor =>
      Except.ok {
        orders := (runQuery p cursor rows).map projectRow
        continuation := responseContinuation p.sortBy (effectiveLimit p)
          (runQuery p cursor rows)
      }

/-! ## Concrete fixtures

A tiny `orders` table and concrete requests, used to instantiate the
theorems below on closed inputs. -/

def rowB : Row :=
  { id := "0xbbbbbbbbbbbbbbbbbbbbbbbbbbbbbbbbbbbbbbbbbbbbbbbbbbbbbbbbbbbbbbbb",
    side := Side.sell, tokenSetId := "token:0xc:1", contract := "0xc",
    maker := "0xm", taker := none, price := Dec.mk 1 [], currencyPrice := none,
    feeBps := 250, createdAt := Dec.mk 100 [],
    fillability := FillabilityStatus.fillable,
    approval := ApprovalStatus.approved }

def rowC : Row :=
  { rowB with
    id := "0xcccccccccccccccccccccccccccccccccccccccccccccccccccccccccccccc",
    price := Dec.mk 2 [], createdAt := Dec.mk 200 [] }

def rowD : Row :=
  { rowB with createdAt := Dec.mk 100 [5] }

def qPriceSort : RawQuery :=
  { token := some "0xc:1", sortBy := some "price", limit := some 2 }

def pPriceSort : QueryParams :=
  { ids := none, token := some "0xc:1", maker := none, contracts := none,
    status := none, includePrivate := false, sortBy := SortBy.price,
    continuation := none, limit := 2 }

def qLimit1000 : RawQuery :=
  { maker := some "0xm", limit := some 1000 }

def pLimit1000 : QueryParams :=
  { ids := none, token := none, maker := some "0xm", contracts := none,
    status := none, includePrivate := false, sortBy := SortBy.createdAt,
    continuation := none, limit := 1000 }

def respFull : Response :=
  Response.mk [projectRow rowB, projectRow rowC]
    (some (buildContinuation (buildContinuationValue SortBy.price rowC)))

/-! ## Lemmas: digit characters and rendering -/

lemma isDigitChar_digitChar (m : Nat) (h : m < 10) :
    isDigitChar (digitChar m) = true := by
  have hall : ∀ k : Fin 10, isDigitChar (digitChar k.val) = true := by decide
  exact hall ⟨m, h⟩

lemma natCharsAux_spec (fuel : Nat) :
    ∀ n, n < fuel →
      (natCharsAux fuel n).all isDigitChar = true ∧ natCharsAux fuel n ≠ [] := by
  induction fuel with
  | zero => intro n h; omega
  | succ fuel ih =>
    intro n h
    rw [natCharsAux]
    split
    · next h10 => simp [isDigitChar_digitChar n h10]
    · next h10 =>
      have hdiv : n / 10 < n := Nat.div_lt_self (by omega) (by omega)
      have hrec := ih (n / 10) (by omega)
      refine ⟨?_, by simp⟩
      simp [List.all_append, hrec.1,
        isDigitChar_digitChar (n % 10) (Nat.mod_lt n (by omega))]

lemma natChars_all_digits (n : Nat) : (natChars n).all isDigitChar = true :=
  (natCharsAux_spec (n + 1) n (by omega)).1

lemma natChars_ne_nil (n : Nat) : natChars n ≠ [] :=
  (natCharsAux_spec (n + 1) n (by omega)).2

/-! ## Lemmas: the underscore split -/

lemma splitUnd_ne_nil (cs : List Char) : splitUnd cs ≠ [] := by
  induction cs with
  | nil => simp [splitUnd]
  | cons c rest ih =>
    rw [splitUnd]
    split
    · simp
    · cases h : splitUnd rest with
      | nil => exact absurd h ih
      | cons g gs => simp [h]

lemma splitUnd_no_underscore (cs : List Char) (h : '_' ∉ cs) :
    splitUnd cs = [cs] := by
  induction cs with
  | nil => rfl
  | cons c rest ih =>
    simp only [List.mem_cons, not_or] at h
    have hc : ¬ c = '_' := fun he => h.1 he.symm
    simp [splitUnd, hc, ih h.2]

lemma splitUnd_append (A B : List Char) (hA : '_' ∉ A) (hB : '_' ∉ B) :
    splitUnd (A ++ '_' :: B) = [A, B] := by
  induction A with
  | nil => simp [splitUnd, splitUnd_no_underscore B hB]
  | cons a A ih =>
    simp only [List.mem_cons, not_or] at hA
    have ha : ¬ a = '_' := fun he => hA.1 he.symm
    simp [splitUnd, ha, ih hA.2]

/-! ## Lemmas: the continuation shape -/

lemma numHeadSplit_append (B : List Char) (c : Char) (hB1 : ¬ B.isEmpty = true)
    (hB2 : B.all isDigitChar = true) :
    ∀ (A : List Char) (a : Nat), A ≠ [] → A.all isDigitChar = true →
      numHeadSplit a (A ++ c :: B) = true := by
  intro A
  induction A with
  | nil => intro a h _; exact absurd rfl h
  | cons d A ih =>
    intro a _ hd
    simp only [List.all_cons, Bool.and_eq_true] at hd
    cases A with
    | nil =>
      rw [List.cons_append, List.nil_append, numHeadSplit]
      have hstep : numHeadSplit (a + 1) (c :: B) = true := by
        rw [numHeadSplit]
        simp [hB2, Bool.not_eq_true] at hB1 ⊢
        exact Or.inl (by simpa using hB1)
      simp [hstep, hd.1]
    | cons e A2 =>
      have hrec := ih (a + 1) (by simp) hd.2
      rw [List.cons_append, numHeadSplit]
      simp only [List.cons_append] at hrec
      simp [hrec, hd.1]

lemma isIdShapeChars_elim (I : List Char) (h : isIdShapeChars I = true) :
    ∃ rest, I = '0' :: 'x' :: rest ∧ rest.length = 64 ∧
      rest.all isHexLowerChar = true := by
  unfold isIdShapeChars at h
  split at h
  · next rest => exact ⟨rest, rfl, by simpa using h⟩
  · exact absurd h (by simp)

lemma matchesNumHead_digits (cs : List Char) (h1 : cs ≠ [])
    (h2 : cs.all isDigitChar = true) : matchesNumHead cs = true := by
  unfold matchesNumHead
  simp [h1, h2]

lemma matchesNumHead_split (A : List Char) (c : Char) (B : List Char)
    (hA1 : A ≠ []) (hA2 : A.all isDigitChar = true)
    (hB1 : B ≠ []) (hB2 : B.all isDigitChar = true) :
    matchesNumHead (A ++ c :: B) = true := by
  unfold matchesNumHead
  have := numHeadSplit_append B c (by simpa [List.isEmpty_iff]) hB2 A 0 hA1 hA2
  simp [this]

lemma mapDigit_all (ks : List (Fin 10)) :
    (ks.map (fun k => digitChar k.val)).all isDigitChar = true := by
  induction ks with
  | nil => rfl
  | cons k ks ih => simp [ih, isDigitChar_digitChar k.val k.isLt]

lemma render_data_numHead (d : Dec) : matchesNumHead (Dec.render d).data = true := by
  unfold Dec.render
  split
  · exact matchesNumHead_digits _ (natChars_ne_nil _) (natChars_all_digits _)
  · next h =>
    show matchesNumHead
      (natChars d.intPart ++ '.' :: d.fracDigits.map (fun k => digitChar k.val)) = true
    exact matchesNumHead_split _ _ _ (natChars_ne_nil _) (natChars_all_digits _)
      (by simpa [List.isEmpty_iff] using h) (mapDigit_all _)

lemma digit_ne_underscore {c : Char} (h : isDigitChar c = true) : c ≠ '_' := by
  intro he
  subst he
  exact absurd h (by decide)

lemma hex_ne_underscore {c : Char} (h : isHexLowerChar c = true) : c ≠ '_' := by
  intro he
  subst he
  exact absurd h (by decide)

lemma render_no_underscore (d : Dec) : '_' ∉ (Dec.render d).data := by
  unfold Dec.render
  split
  · intro hm
    exact digit_ne_underscore
      (List.all_eq_true.mp (natChars_all_digits d.intPart) _ hm) rfl
  · show '_' ∉ natChars d.intPart ++ '.' :: d.fracDigits.map (fun k => digitChar k.val)
    intro hm
    rcases List.mem_append.mp hm with h1 | h1
    · exact digit_ne_underscore
        (List.all_eq_true.mp (natChars_all_digits _) _ h1) rfl
    · rcases List.mem_cons.mp h1 with h2 | h2
      · exact absurd h2.symm (by decide)
      · exact digit_ne_underscore
          (List.all_eq_true.mp (mapDigit_all _) _ h2) rfl

lemma idShape_no_underscore (I : List Char) (h : isIdShapeChars I = true) :
    '_' ∉ I := by
  obtain ⟨rest, rfl, hlen, hhex⟩ := isIdShapeChars_elim I h
  intro hm
  rcases List.mem_cons.mp hm with h1 | h1
  · exact absurd h1 (by decide)
  · rcases List.mem_cons.mp h1 with h2 | h2
    · exact absurd h2 (by decide)
    · exact hex_ne_underscore (List.all_eq_true.mp hhex _ h2) rfl

lemma matchesContinuationShape_append (d : Dec) (id : String)
    (hid : isIdShape id = true) :
    matchesContinuationShape (Dec.render d ++ "_" ++ id) = true := by
  obtain ⟨rest, hI, hlen, hhex⟩ := isIdShapeChars_elim id.data hid
  have hdata : (Dec.render d ++ "_" ++ id).data
      = (Dec.render d).data ++ '_' :: id.data := by
    rw [String.data_append, String.data_append]
    rw [List.append_assoc]
    rfl
  unfold matchesContinuationShape
  rw [hdata, hI]
  have hL : ((Dec.render d).data ++ '_' :: '0' :: 'x' :: rest).length - 67
      = (Dec.render d).data.length := by
    simp [hlen]
  rw [hL]
  have hdrop : ((Dec.render d).data ++ '_' :: '0' :: 'x' :: rest).drop
      (Dec.render d).data.length = '_' :: '0' :: 'x' :: rest :=
    List.drop_left _ _
  have htake : ((Dec.render d).data ++ '_' :: '0' :: 'x' :: rest).take
      (Dec.render d).data.length = (Dec.render d).data :=
    List.take_left _ _
  rw [hdrop, htake]
  simp [render_data_numHead d, hlen, hhex]

/-! ## Lemmas: numeral values and orders -/

lemma buildContinuationValue_eq (m : SortBy) (r : Row) :
    buildContinuationValue m r = Dec.render (sortKeyOf m r) ++ "_" ++ r.id := by
  cases m <;> rfl

lemma fracVal_eq (ds : List (Fin 10)) :
    fracVal ds = (fracNum ds : ℚ) / 10 ^ ds.length := by
  induction ds with
  | nil => simp [fracVal, fracNum]
  | cons d ds ih =>
    rw [fracVal, fracNum, ih]
    push_cast
    have h10 : (10:ℚ) ^ ds.length ≠ 0 := by positivity
    field_simp
    ring_nf
    exact Or.inl trivial

lemma scaled_value (d : Dec) (M : Nat) (h : d.fracDigits.length ≤ M) :
    ((Dec.scaled d M : Nat) : ℚ) = Dec.value d * 10 ^ M := by
  have h10 : (10:ℚ) ^ d.fracDigits.length ≠ 0 := by positivity
  have hmul : (10:ℚ) ^ (M - d.fracDigits.length) * 10 ^ d.fracDigits.length
      = 10 ^ M := by
    rw [← pow_add]
    congr 1
    omega
  have hdiv : ((10:ℚ) ^ (M - d.fracDigits.length))
      = 10 ^ M / 10 ^ d.fracDigits.length := by
    rw [eq_div_iff h10, hmul]
  rw [Dec.scaled, Dec.value, fracVal_eq]
  push_cast
  rw [hdiv]
  field_simp
  ring

lemma ltB_iff (a b : Dec) : Dec.ltB a b = true ↔ a.value < b.value := by
  rw [Dec.ltB, decide_eq_true_eq]
  have ha : a.fracDigits.length ≤ max a.fracDigits.length b.fracDigits.length :=
    le_max_left _ _
  have hb : b.fracDigits.length ≤ max a.fracDigits.length b.fracDigits.length :=
    le_max_right _ _
  rw [← Nat.cast_lt (α := ℚ), scaled_value a _ ha, scaled_value b _ hb,
    mul_lt_mul_right (by positivity : (0:ℚ)
      < 10 ^ max a.fracDigits.length b.fracDigits.length)]

lemma eqB_iff (a b : Dec) : Dec.eqB a b = true ↔ a.value = b.value := by
  rw [Dec.eqB, decide_eq_true_eq]
  have ha : a.fracDigits.length ≤ max a.fracDigits.length b.fracDigits.length :=
    le_max_left _ _
  have hb : b.fracDigits.length ≤ max a.fracDigits.length b.fracDigits.length :=
    le_max_right _ _
  rw [← Nat.cast_inj (R := ℚ), scaled_value a _ ha, scaled_value b _ hb]
  constructor
  · intro h
    exact mul_right_cancel₀ (by positivity : ((10:ℚ)
      ^ max a.fracDigits.length b.fracDigits.length) ≠ 0) h
  · intro h
    rw [h]

lemma charListLt_iff (as : List Char) : ∀ bs, charListLt as bs = true ↔ as < bs := by
  induction as with
  | nil =>
    intro bs
    cases bs with
    | nil =>
      simp only [charListLt]
      constructor
      · intro h; exact absurd h (by simp)
      · intro h; cases h
    | cons b bs =>
      simp only [charListLt]
      exact iff_of_true trivial List.Lex.nil
  | cons a as ih =>
    intro bs
    cases bs with
    | nil =>
      simp only [charListLt]
      constructor
      · intro h; exact absurd h (by simp)
      · intro h; cases h
    | cons b bs =>
      rw [charListLt]
      simp only [Bool.or_eq_true, Bool.and_eq_true, decide_eq_true_eq]
      constructor
      · rintro (hlt | ⟨rfl, hrec⟩)
        · exact List.Lex.rel hlt
        · exact List.Lex.cons ((ih bs).mp hrec)
      · intro h
        cases h with
        | cons hrec => exact Or.inr ⟨rfl, (ih bs).mpr hrec⟩
        | rel hlt => exact Or.inl hlt

lemma strLt_iff (a b : String) : strLt a b = true ↔ a < b := by
  rw [String.lt_iff_toList_lt]
  exact charListLt_iff a.data b.data

lemma strLe_iff (a b : String) : strLe a b = true ↔ a ≤ b := by
  rw [le_iff_lt_or_eq, strLe]
  simp [strLt_iff]


lemma pairLe_trans {α β : Type} [LinearOrder α] [LinearOrder β]
    (x y z : α × β) (h1 : pairLe x y) (h2 : pairLe y z) : pairLe x z := by
  rcases h1 with h1 | ⟨h1e, h1le⟩
  · rcases h2 with h2 | ⟨h2e, h2le⟩
    · exact Or.inl (lt_trans h1 h2)
    · exact Or.inl (h2e ▸ h1)
  · rcases h2 with h2 | ⟨h2e, h2le⟩
    · exact Or.inl (h1e ▸ h2)
    · exact Or.inr ⟨h1e.trans h2e, le_trans h1le h2le⟩

lemma pairLe_total {α β : Type} [LinearOrder α] [LinearOrder β]
    (x y : α × β) : pairLe x y ∨ pairLe y x := by
  rcases lt_trichotomy x.1 y.1 with h | h | h
  · exact Or.inl (Or.inl h)
  · rcases le_total x.2 y.2 with h2 | h2
    · exact Or.inl (Or.inr ⟨h, h2⟩)
    · exact Or.inr (Or.inr ⟨h.symm, h2⟩)
  · exact Or.inr (Or.inl h)

lemma orderLe_price_iff (a b : Row) :
    orderLe SortBy.price a b = true ↔
      pairLe (a.price.value, a.id) (b.price.value, b.id) := by
  simp [orderLe, pairLe, ltB_iff, eqB_iff, strLe_iff]

lemma orderLe_createdAt_iff (a b : Row) :
    orderLe SortBy.createdAt a b = true ↔
      pairLe (b.createdAt.value, b.id) (a.createdAt.value, a.id) := by
  simp [orderLe, pairLe, ltB_iff, eqB_iff, strLe_iff]

lemma orderLe_trans (m : SortBy) (a b c : Row)
    (h1 : orderLe m a b = true) (h2 : orderLe m b c = true) :
    orderLe m a c = true := by
  cases m
  · rw [orderLe_price_iff] at h1 h2 ⊢
    exact pairLe_trans _ _ _ h1 h2
  · rw [orderLe_createdAt_iff] at h1 h2 ⊢
    exact pairLe_trans _ _ _ h2 h1

lemma orderLe_total (m : SortBy) (a b : Row) :
    orderLe m a b = true ∨ orderLe m b a = true := by
  cases m
  · rw [orderLe_price_iff, orderLe_price_iff]
    exact pairLe_total _ _
  · rw [orderLe_createdAt_iff, orderLe_createdAt_iff]
    exact (pairLe_total _ _).symm

lemma runQuery_pairwise (p : QueryParams) (cursor : Option (String × String))
    (rows : List Row) :
    (runQuery p cursor rows).Pairwise (fun a b => orderLe p.sortBy a b = true) := by
  haveI : IsTotal Row (fun a b => orderLe p.sortBy a b = true) :=
    ⟨fun a b => orderLe_total p.sortBy a b⟩
  haveI : IsTrans Row (fun a b => orderLe p.sortBy a b = true) :=
    ⟨fun a b c => orderLe_trans p.sortBy a b c⟩
  exact List.Pairwise.sublist (List.take_sublist _ _)
    (List.sorted_insertionSort _ _)

lemma runQuery_mem_eval (p : QueryParams) (cursor : Option (String × String))
    (rows : List Row) (r : Row) (hr : r ∈ runQuery p cursor rows) :
    ∀ c ∈ buildConditions p cursor, evalCond c r = true := by
  have h1 := List.mem_of_mem_take hr
  have h2 := (List.perm_insertionSort
    (fun a b => orderLe p.sortBy a b = true) _).mem_iff.mp h1
  have h3 := (List.mem_filter.mp h2).2
  exact fun c hc => List.all_eq_true.mp h3 c hc

lemma pagination_cond_mem_price (p : QueryParams) (k i : String)
    (h : p.sortBy = SortBy.price) :
    Cond.paginationPrice k i ∈ buildConditions p (some (k, i)) := by
  simp [buildConditions, cursorConds, h]

lemma pagination_cond_mem_createdAt (p : QueryParams) (k i : String)
    (h : p.sortBy = SortBy.createdAt) :
    Cond.paginationCreatedAt k i ∈ buildConditions p (some (k, i)) := by
  simp [buildConditions, cursorConds, h]

/-! ## Lemmas: request validation and the handler pipeline -/

lemma parseLimitField_pos (o : Option Nat) (n : Nat)
    (h : parseLimitField o = Except.ok n) : 1 ≤ n := by
  cases o with
  | none =>
    simp [parseLimitField] at h
    omega
  | some m =>
    rw [parseLimitField] at h
    split at h
    · next hb => cases h; omega
    · cases h

lemma validateQuery_ok_components (q : RawQuery) (p : QueryParams)
    (h : validateQuery q = Except.ok p) :
    parseStatusField q.status = Except.ok p.status ∧
    parseSortField q.token q.sortBy = Except.ok p.sortBy ∧
    parseLimitField q.limit = Except.ok p.limit ∧
    p.ids = q.ids ∧ p.token = q.token ∧ p.maker = q.maker ∧
    p.contracts = q.contracts ∧ p.includePrivate = q.includePrivate ∧
    p.continuation = q.continuation := by
  rw [validateQuery] at h
  split at h
  · cases h
  · next status hstatus =>
    split at h
    · cases h
    · next sortBy hsort =>
      split at h
      · cases h
      · next limit hlimit =>
        split at h
        · cases h
        · split at h
          · cases h
          · cases h
            exact ⟨hstatus, hsort, hlimit, rfl, rfl, rfl, rfl, rfl, rfl⟩

lemma validateQuery_limit_pos (q : RawQuery) (p : QueryParams)
    (h : validateQuery q = Except.ok p) : 1 ≤ p.limit :=
  parseLimitField_pos _ _ (validateQuery_ok_components q p h).2.2.1

lemma parseSortField_no_token (o : Option String) (m : SortBy)
    (h : parseSortField none o = Except.ok m) : m = SortBy.createdAt := by
  cases o with
  | none =>
    simp [parseSortField] at h
    exact h.symm
  | some s =>
    rw [parseSortField] at h
    simp only [Option.isSome_none, Bool.false_eq_true, if_false] at h
    split at h
    · cases h; rfl
    · split at h
      · cases h
      · cases h

lemma parseSortField_createdAt (t : Option String) :
    parseSortField t (some "createdAt") = Except.ok SortBy.createdAt := by
  cases t <;> rfl

lemma handleRequest_ok_elim (q : RawQuery) (rows : List Row) (p : QueryParams)
    (resp : Response) (hv : validateQuery q = Except.ok p)
    (hr : handleRequest q rows = Except.ok resp) :
    ∃ cursor, resolveCursor p.continuation = Except.ok cursor ∧
      resp.orders = (runQuery p cursor rows).map projectRow ∧
      resp.continuation = responseContinuation p.sortBy (effectiveLimit p)
        (runQuery p cursor rows) := by
  rw [handleRequest, hv] at hr
  dsimp only [] at hr
  cases hcur : resolveCursor p.continuation with
  | error e =>
    rw [hcur] at hr
    cases hr
  | ok cursor =>
    rw [hcur] at hr
    cases hr
    exact ⟨cursor, rfl, rfl, rfl⟩


/-! ## Lemmas: counting the status predicates -/

lemma countP_idsConds (o : Option IdsFilter) :
    (idsConds o).countP isStatusCond = 0 := by
  cases o with
  | none => rfl
  | some f => cases f <;> rfl

lemma countP_tokenConds (o : Option String) :
    (tokenConds o).countP isStatusCond = 0 := by
  cases o <;> rfl

lemma countP_contractsConds (o : Option (List String)) :
    (contractsConds o).countP isStatusCond = 0 := by
  cases o <;> rfl

lemma countP_makerConds (o : Option String) :
    (makerConds o).countP isStatusCond = 0 := by
  cases o <;> rfl

lemma countP_privateConds (b : Bool) :
    (privateConds b).countP isStatusCond = 0 := by
  cases b <;> rfl

lemma countP_cursorConds (m : SortBy) (c : Option (String × String)) :
    (cursorConds m c).countP isStatusCond = 0 := by
  cases c with
  | none => cases m <;> rfl
  | some pr => cases m <;> rfl

lemma isStatusCond_statusCond (p : QueryParams) :
    isStatusCond (statusCond p) = true := by
  rw [statusCond]
  split <;> rfl


/-! ## Lemmas: decode of well-shaped tokens -/

lemma shape_underscore_mem (s : String) (h : matchesContinuationShape s = true) :
    '_' ∈ s.data := by
  unfold matchesContinuationShape at h
  split at h
  · next heq =>
    have hm : '_' ∈ s.data.drop (s.data.length - 67) := by
      rw [heq]
      exact List.mem_cons_self _ _
    exact List.drop_subset _ _ hm
  · exact absurd h (by simp)

lemma splitUnd_two_of_mem (cs : List Char) (h : '_' ∈ cs) :
    2 ≤ (splitUnd cs).length := by
  induction cs with
  | nil => cases h
  | cons c rest ih =>
    rw [splitUnd]
    split
    · cases hsp : splitUnd rest with
      | nil => exact absurd hsp (splitUnd_ne_nil rest)
      | cons g gs => simp
    · next hc =>
      have hrest : '_' ∈ rest := by
        rcases List.mem_cons.mp h with h1 | h1
        · exact absurd h1.symm hc
        · exact h1
      cases hsp : splitUnd rest with
      | nil => exact absurd hsp (splitUnd_ne_nil rest)
      | cons g gs =>
        have hlen := ih hrest
        rw [hsp] at hlen
        simp only [List.length_cons] at hlen ⊢
        omega


/-! ## The claims -/

/-- C1: for every request carrying a continuation token, the pagination
predicate uses the same composite key and direction as the active sort:
under price sort every returned record's `(price, id)` tuple is
lexicographically strictly greater than the decoded cursor pair, under
createdAt sort strictly less, and the returned page is ordered by the very
same tuple (price asc, id asc, respectively created_at desc, id desc). -/

theorem pagination_predicate_matches_sort (p : QueryParams) (k i : String)
    (kd : Dec) (rows : List Row) (hk : parseDecNumeral k = some kd) :
    (p.sortBy = SortBy.price →
      (∀ r ∈ runQuery p (some (k, i)) rows,
        kd.value < r.price.value ∨ (kd.value = r.price.value ∧ i < r.id)) ∧
      (runQuery p (some (k, i)) rows).Pairwise
        (fun a b => pairLe (a.price.value, a.id) (b.price.value, b.id))) ∧
    (p.sortBy = SortBy.createdAt →
      (∀ r ∈ runQuery p (some (k, i)) rows,
        r.createdAt.value < kd.value ∨ (r.createdAt.value = kd.value ∧ r.id < i)) ∧
      (runQuery p (some (k, i)) rows).Pairwise
        (fun a b => pairLe (b.createdAt.value, b.id) (a.createdAt.value, a.id))) := by
  constructor
  · intro hsort
    constructor
    · intro r hr
      have heval := runQuery_mem_eval p (some (k, i)) rows r hr
        (Cond.paginationPrice k i) (pagination_cond_mem_price p k i hsort)
      simp only [evalCond, hk] at heval
      rw [Bool.or_eq_true, Bool.and_eq_true] at heval
      rcases heval with h | ⟨h1, h2⟩
      · exact Or.inl ((ltB_iff _ _).mp h)
      · exact Or.inr ⟨(eqB_iff _ _).mp h1, (strLt_iff _ _).mp h2⟩
    · have hpw := runQuery_pairwise p (some (k, i)) rows
      rw [hsort] at hpw
      exact hpw.imp (fun hab => (orderLe_price_iff _ _).mp hab)
  · intro hsort
    constructor
    · intro r hr
      have heval := runQuery_mem_eval p (some (k, i)) rows r hr
        (Cond.paginationCreatedAt k i) (pagination_cond_mem_createdAt p k i hsort)
      simp only [evalCond, hk] at heval
      rw [Bool.or_eq_true, Bool.and_eq_true] at heval
      rcases heval with h | ⟨h1, h2⟩
      · exact Or.inl ((ltB_iff _ _).mp h)
      · exact Or.inr ⟨(eqB_iff _ _).mp h1, (strLt_iff _ _).mp h2⟩
    · have hpw := runQuery_pairwise p (some (k, i)) rows
      rw [hsort] at hpw
      exact hpw.imp (fun hab => (orderLe_createdAt_iff _ _).mp hab)

/-- Concrete instantiation of `pagination_predicate_matches_sort`: the one
row the query returns past the cursor `("1", rowB.id)` satisfies the strict
tuple bound. -/

theorem pagination_predicate_matches_sort_witness :
    (Dec.mk 1 []).value < rowC.price.value ∨
      ((Dec.mk 1 []).value = rowC.price.value ∧ rowB.id < rowC.id) :=
  ((pagination_predicate_matches_sort pPriceSort "1" rowB.id (Dec.mk 1 [])
    [rowC, rowB] rfl).1 rfl).1 rowC (by decide)

/-- C2: the derived status is a total, deterministic function of the pair
(fillability flag, approval flag): it equals the spec's precedence table on
every flag pair and always yields exactly one of the five labels. -/

theorem status_classifier_total_precedence (f : FillabilityStatus)
    (a : ApprovalStatus) :
    statusCase f a = specStatusTable f a ∧
    statusCase f a ∈ ["filled", "cancelled", "expired", "inactive", "active"] := by
  cases f <;> cases a <;> simp [statusCase, specStatusTable]

/-- C3: a request (with well-formed field values) in which none of ids,
token, contracts, maker is present is rejected with
`InvalidFilterCombination` before any query executes (the response is an
error for every table state), and a request that supplies status without
maker is rejected likewise. -/

theorem filter_combination_validation (q : RawQuery) (rows : List Row)
    (hs : q.status = none ∨ q.status = some "active" ∨ q.status = some "inactive")
    (hb : q.sortBy = none ∨ q.sortBy = some "createdAt" ∨
      ((∃ t, q.token = some t) ∧ q.sortBy = some "price"))
    (hl : q.limit = none ∨ ∃ n, q.limit = some n ∧ 1 ≤ n ∧ n ≤ 1000) :
    (q.ids = none ∧ q.token = none ∧ q.contracts = none ∧ q.maker = none →
      handleRequest q rows = Except.error QueryError.invalidFilterCombination) ∧
    (q.status.isSome = true ∧ q.maker = none →
      handleRequest q rows = Except.error QueryError.invalidFilterCombination) := by
  obtain ⟨st, hst⟩ : ∃ st, parseStatusField q.status = Except.ok st := by
    rcases hs with h | h | h <;> rw [h] <;> exact ⟨_, rfl⟩
  obtain ⟨sb, hsb⟩ : ∃ sb, parseSortField q.token q.sortBy = Except.ok sb := by
    rcases hb with h | h | ⟨⟨t, ht⟩, h⟩
    · rw [h]; exact ⟨_, rfl⟩
    · rw [h, parseSortField_createdAt]; exact ⟨_, rfl⟩
    · rw [h, ht]; exact ⟨_, rfl⟩
  obtain ⟨L, hL⟩ : ∃ L, parseLimitField q.limit = Except.ok L := by
    rcases hl with h | ⟨n, hn, h1, h2⟩
    · rw [h]; exact ⟨_, rfl⟩
    · rw [hn, parseLimitField]
      rw [if_pos ⟨h1, h2⟩]
      exact ⟨_, rfl⟩
  constructor
  · intro hcond
    have hv : validateQuery q = Except.error QueryError.invalidFilterCombination := by
      rw [validateQuery, hst, hsb, hL]
      dsimp only []
      rw [if_pos hcond]
    rw [handleRequest, hv]
  · intro hcond
    have hv : validateQuery q = Except.error QueryError.invalidFilterCombination := by
      rw [validateQuery, hst, hsb, hL]
      dsimp only []
      by_cases hfirst : q.ids = none ∧ q.token = none ∧ q.contracts = none ∧ q.maker = none
      · rw [if_pos hfirst]
      · rw [if_neg hfirst, if_pos hcond]
    rw [handleRequest, hv]

/-- Concrete instantiation of `filter_combination_validation`: the empty
request and a status-without-maker request are both rejected. -/

theorem filter_combination_validation_witness :
    handleRequest ({} : RawQuery) [] =
      Except.error QueryError.invalidFilterCombination ∧
    handleRequest { token := some "0xc:1", status := some "active" : RawQuery } [] =
      Except.error QueryError.invalidFilterCombination := by
  constructor
  · exact (filter_combination_validation {} [] (Or.inl rfl) (Or.inl rfl)
      (Or.inl rfl)).1 ⟨rfl, rfl, rfl, rfl⟩
  · exact (filter_combination_validation
      { token := some "0xc:1", status := some "active" : RawQuery } []
      (Or.inr (Or.inl rfl)) (Or.inl rfl) (Or.inl rfl)).2 ⟨rfl, rfl⟩

/-- C4: `sortBy=price` is accepted only when a token filter is present: a
request (with a well-formed status field) carrying `sortBy=price` and no
token fails with `InvalidSortForFilter`, and every validated token-less
request has `createdAt` as its sort mode. -/

theorem price_sort_requires_token (q : RawQuery) (rows : List Row)
    (hs : q.status = none ∨ q.status = some "active" ∨ q.status = some "inactive") :
    (q.sortBy = some "price" → q.token = none →
      handleRequest q rows = Except.error QueryError.invalidSortForFilter) ∧
    (∀ p, validateQuery q = Except.ok p → q.token = none →
      p.sortBy = SortBy.createdAt) := by
  constructor
  · intro hp ht
    have hv : validateQuery q = Except.error QueryError.invalidSortForFilter := by
      rw [validateQuery]
      rcases hs with h | h | h <;> rw [h, ht, hp] <;> rfl
    rw [handleRequest, hv]
  · intro p hv ht
    have hsort := (validateQuery_ok_components q p hv).2.1
    rw [ht] at hsort
    exact parseSortField_no_token _ _ hsort

/-- Concrete instantiation of `price_sort_requires_token` at the request
`{sortBy := price}`. -/

theorem price_sort_requires_token_witness :
    ((some "price" = some "price" → (none : Option String) = none →
      handleRequest { sortBy := some "price" : RawQuery } [] =
        Except.error QueryError.invalidSortForFilter) ∧
    (∀ p, validateQuery { sortBy := some "price" : RawQuery } = Except.ok p →
      (none : Option String) = none → p.sortBy = SortBy.createdAt)) ∧
    handleRequest { sortBy := some "price" : RawQuery } [] =
      Except.error QueryError.invalidSortForFilter := by
  have h := price_sort_requires_token { sortBy := some "price" : RawQuery } []
    (Or.inl rfl)
  exact ⟨h, h.1 rfl rfl⟩

/-- C5: the effective page limit passed to the query is the minimum of the
requested page size and the absolute maximum 100, so every response carries
at most 100 rows. -/

theorem limit_clamped_to_100 (q : RawQuery) (rows : List Row) (p : QueryParams)
    (resp : Response) (hv : validateQuery q = Except.ok p)
    (hr : handleRequest q rows = Except.ok resp) :
    effectiveLimit p = min p.limit 100 ∧
    resp.orders.length ≤ min p.limit 100 ∧
    resp.orders.length ≤ 100 := by
  obtain ⟨cursor, hcur, horders, hcont⟩ := handleRequest_ok_elim q rows p resp hv hr
  have hlen : resp.orders.length ≤ effectiveLimit p := by
    rw [horders, List.length_map]
    exact List.length_take_le _ _
  exact ⟨rfl, hlen, le_trans hlen (min_le_right _ _)⟩

/-- Concrete instantiation of `limit_clamped_to_100` at a request asking
for 1000 rows. -/

theorem limit_clamped_to_100_witness :
    effectiveLimit pLimit1000 = min pLimit1000.limit 100 ∧
    (Response.mk [projectRow rowC, projectRow rowB] none).orders.length ≤
      min pLimit1000.limit 100 ∧
    (Response.mk [projectRow rowC, projectRow rowB] none).orders.length ≤ 100 :=
  limit_clamped_to_100 qLimit1000 [rowB, rowC] pLimit1000
    (Response.mk [projectRow rowC, projectRow rowB] none) rfl rfl

/-- C6, counterexample: a continuation token produced under createdAt sort
(it encodes the row's `created_at` epoch `100.5`) is accepted unchanged by
a price-sorted request — the decoder never rejects a token whose encoded
sort-key kind disagrees with the request's sort mode. -/

theorem continuation_sort_mode_not_rejected_cex :
    buildContinuationValue SortBy.createdAt rowD =
      "100.5_0xbbbbbbbbbbbbbbbbbbbbbbbbbbbbbbbbbbbbbbbbbbbbbbbbbbbbbbbbbbbbbbbb" ∧
    splitContinuation
        "100.5_0xbbbbbbbbbbbbbbbbbbbbbbbbbbbbbbbbbbbbbbbbbbbbbbbbbbbbbbbbbbbbbbbb" =
      Except.ok ("100.5",
        "0xbbbbbbbbbbbbbbbbbbbbbbbbbbbbbbbbbbbbbbbbbbbbbbbbbbbbbbbbbbbbbbbb") ∧
    handleRequest
      { token := some "0xc:1", sortBy := some "price",
        continuation := some
          "100.5_0xbbbbbbbbbbbbbbbbbbbbbbbbbbbbbbbbbbbbbbbbbbbbbbbbbbbbbbbbbbbbbbbb" }
      [] = Except.ok (Response.mk [] none) ∧
    handleRequest
      { token := some "0xc:1", sortBy := some "createdAt",
        continuation := some
          "100.5_0xbbbbbbbbbbbbbbbbbbbbbbbbbbbbbbbbbbbbbbbbbbbbbbbbbbbbbbbbbbbbbbbb" }
      [] = Except.ok (Response.mk [] none) :=
  ⟨rfl, rfl, rfl, rfl⟩

/-- C6, amended: decoding validates the token against the single shape
`^\d+(.\d+)?_0x[a-f0-9]{64}$` and fails with `InvalidContinuation` exactly
on a shape mismatch; the shape is the same for both sort modes (the token
carries no sort-mode marker), so a well-formed token decodes under either
mode. -/

theorem continuation_single_shape_both_modes (tok : String) :
    (splitContinuation tok = Except.error QueryError.invalidContinuation ↔
      matchesContinuationShape tok = false) ∧
    ((∃ pr, splitContinuation tok = Except.ok pr) ↔
      matchesContinuationShape tok = true) := by
  cases hshape : matchesContinuationShape tok with
  | false =>
    have herr : splitContinuation tok =
        Except.error QueryError.invalidContinuation := by
      rw [splitContinuation, if_neg (by simp [hshape])]
    constructor
    · exact iff_of_true herr rfl
    · refine iff_of_false ?_ ?_
      · rintro ⟨pr, hpr⟩
        rw [herr] at hpr
        cases hpr
      · intro h
        cases h
  | true =>
    have hmem := shape_underscore_mem tok hshape
    have hlen := splitUnd_two_of_mem tok.data hmem
    cases hsp : splitUnd tok.data with
    | nil => exact absurd hsp (splitUnd_ne_nil _)
    | cons a t1 =>
      cases t1 with
      | nil =>
        rw [hsp] at hlen
        simp at hlen
      | cons b t2 =>
        have hok : splitContinuation tok = Except.ok (⟨a⟩, ⟨b⟩) := by
          rw [splitContinuation, if_pos hshape, hsp]
        constructor
        · refine iff_of_false ?_ ?_
          · rw [hok]
            intro h
            cases h
          · intro h
            cases h
        · exact iff_of_true ⟨_, hok⟩ rfl

/-- C7: a response carries a non-null continuation token if and only if the
number of returned rows equals the clamped limit, and that token is built
from the last returned row's active sort-key value paired with its id; a
shorter page carries a null continuation. -/

theorem continuation_emitted_iff_full_page (q : RawQuery) (rows : List Row)
    (p : QueryParams) (cursor : Option (String × String)) (resp : Response)
    (hv : validateQuery q = Except.ok p)
    (hc : resolveCursor p.continuation = Except.ok cursor)
    (hr : handleRequest q rows = Except.ok resp) :
    (resp.continuation ≠ none ↔ resp.orders.length = effectiveLimit p) ∧
    resp.continuation =
      (if resp.orders.length = effectiveLimit p then
        ((runQuery p cursor rows).getLast?).map
          (fun r => buildContinuation (buildContinuationValue p.sortBy r))
      else none) := by
  obtain ⟨cursor2, hc2, horders, hcont⟩ := handleRequest_ok_elim q rows p resp hv hr
  rw [hc] at hc2
  cases hc2
  have hlen : resp.orders.length = (runQuery p cursor rows).length := by
    rw [horders, List.length_map]
  have hpos : 1 ≤ effectiveLimit p := by
    have := validateQuery_limit_pos q p hv
    rw [effectiveLimit]
    omega
  by_cases hfull : (runQuery p cursor rows).length = effectiveLimit p
  · have hne : runQuery p cursor rows ≠ [] := by
      intro hnil
      rw [hnil] at hfull
      simp at hfull
      omega
    obtain ⟨last, hlast⟩ := Option.isSome_iff_exists.mp
      (List.getLast?_isSome.mpr hne)
    have hcval : resp.continuation =
        some (buildContinuation (buildContinuationValue p.sortBy last)) := by
      rw [hcont, responseContinuation, if_pos hfull, hlast]
    constructor
    · constructor
      · intro _
        rw [hlen]
        exact hfull
      · intro _
        rw [hcval]
        simp
    · rw [if_pos (by rw [hlen]; exact hfull), hlast, hcval]
      rfl
  · have hcnone : resp.continuation = none := by
      rw [hcont, responseContinuation, if_neg hfull]
    constructor
    · constructor
      · intro hne2
        exact absurd hcnone hne2
      · intro heq
        rw [hlen] at heq
        exact absurd heq hfull
    · rw [if_neg (by rw [hlen]; exact hfull), hcnone]

/-- Concrete instantiation of `continuation_emitted_iff_full_page` on a
full page of two rows under price sort. -/

theorem continuation_emitted_iff_full_page_witness :
    (respFull.continuation ≠ none ↔
      respFull.orders.length = effectiveLimit pPriceSort) ∧
    respFull.continuation =
      (if respFull.orders.length = effectiveLimit pPriceSort then
        ((runQuery pPriceSort none [rowB, rowC]).getLast?).map
          (fun r => buildContinuation
            (buildContinuationValue pPriceSort.sortBy r))
      else none) :=
  continuation_emitted_iff_full_page qPriceSort [rowB, rowC] pPriceSort none
    respFull rfl rfl rfl

/-- C8: the gross amount is the currency-denominated price when present and
the native price otherwise, and the net amount is
gross x (10000 - feeBps) / 10000, applied identically to the native and
currency-denominated amounts; in particular price 100 with feeBps 250
yields net 97.5. -/

theorem net_amount_formula (r : Row) :
    (projectRow r).grossCurrencyAmount =
      (match r.currencyPrice with
       | some c => c
       | none => r.price.value) ∧
    (projectRow r).grossNativeAmount = r.price.value ∧
    (projectRow r).netCurrencyAmount =
      (projectRow r).grossCurrencyAmount * (10000 - (r.feeBps : ℚ)) / 10000 ∧
    (projectRow r).netNativeAmount =
      (projectRow r).grossNativeAmount * (10000 - (r.feeBps : ℚ)) / 10000 ∧
    getNetAmount 100 250 = 97.5 := by
  refine ⟨rfl, rfl, rfl, rfl, ?_⟩
  rw [getNetAmount]
  norm_num

/-- C9: every assembled query contains exactly one default status
predicate, appended regardless of the other filters; it is
fillability = fillable AND approval = approved except when maker is present
with status = inactive, in which case it is the no-balance-or-unapproved
variant. -/

theorem single_default_status_predicate (p : QueryParams)
    (cursor : Option (String × String)) :
    (buildConditions p cursor).countP isStatusCond = 1 ∧
    statusCond p ∈ buildConditions p cursor ∧
    statusCond p =
      (if p.maker.isSome ∧ p.status = some OrderStatusParam.inactive
       then Cond.statusInactiveVariant
       else Cond.statusDefault) ∧
    (∀ r, evalCond Cond.statusDefault r =
      (decide (r.fillability = FillabilityStatus.fillable) &&
        decide (r.approval = ApprovalStatus.approved))) ∧
    (∀ r, evalCond Cond.statusInactiveVariant r =
      (decide (r.fillability = FillabilityStatus.noBalance) ||
        (decide (r.fillability = FillabilityStatus.fillable) &&
          !decide (r.approval = ApprovalStatus.approved)))) := by
  refine ⟨?_, ?_, rfl, fun r => rfl, fun r => rfl⟩
  · rw [buildConditions]
    simp only [List.countP_append, countP_idsConds, countP_tokenConds,
      countP_contractsConds, countP_makerConds, countP_privateConds,
      countP_cursorConds, List.countP_cons, List.countP_nil,
      isStatusCond_statusCond]
    rfl
  · rw [buildConditions]
    simp [List.mem_append]

/-- C10: every continuation token the engine emits round-trips through its
own decoder: for a row whose id matches `0x[a-f0-9]{64}`, the token built
from the row's sort-key value and id (under either sort mode) matches the
decode shape and decodes back to the same pair. -/

theorem continuation_token_roundtrip (m : SortBy) (r : Row)
    (hid : isIdShape r.id = true) :
    matchesContinuationShape (buildContinuationValue m r) = true ∧
    splitContinuation (buildContinuation (buildContinuationValue m r)) =
      Except.ok (Dec.render (sortKeyOf m r), r.id) := by
  rw [buildContinuationValue_eq]
  have hshape := matchesContinuationShape_append (sortKeyOf m r) r.id hid
  refine ⟨hshape, ?_⟩
  unfold buildContinuation splitContinuation
  rw [if_pos hshape]
  have hdata : (Dec.render (sortKeyOf m r) ++ "_" ++ r.id).data
      = (Dec.render (sortKeyOf m r)).data ++ '_' :: r.id.data := by
    rw [String.data_append, String.data_append]
    rw [List.append_assoc]
    rfl
  rw [hdata, splitUnd_append _ _ (render_no_underscore _)
    (idShape_no_underscore _ hid)]

/-- Concrete instantiation of `continuation_token_roundtrip` under price
sort at a concrete row. -/

theorem continuation_token_roundtrip_witness :
    matchesContinuationShape (buildContinuationValue SortBy.price rowB) = true ∧
    splitContinuation
        (buildContinuation (buildContinuationValue SortBy.price rowB)) =
      Except.ok (Dec.render (sortKeyOf SortBy.price rowB), rowB.id) :=
  continuation_token_roundtrip SortBy.price rowB (by decide)


end ReservoirAsksV3
